import Mathlib

/-!
Shallow embedding of the Spanish Vocabulary Trainer (`src/main.py`).

Pure functions of the source are translated directly; the GUI state that the
claims mention (`self.vocabulary`, `self.current_index`, `self.recent_words`,
`self.words_since_last_exam`, `self.current_sentences`, `self.cancel_event`)
is carried as explicit state.  Nondeterministic calls (`random.shuffle`,
`random.sample`) are parameters constrained to be permutations / samples.
File reads are modelled as an `Option String` (`none` = missing/unreadable
file, matching the `except` branches of `load_vocabulary_file`).
-/

namespace VocabTrainer

/-- Configuration constant `EXAM_TRIGGER_INTERVAL = 10` from `src/main.py`. -/
def EXAM_TRIGGER_INTERVAL : Nat := 10

/-- Configuration constant `EXAM_WORD_COUNT = 20` from `src/main.py`. -/
def EXAM_WORD_COUNT : Nat := 20

/-- Configuration constant `EXAM_CHOICES_COUNT = 4` from `src/main.py`. -/
def EXAM_CHOICES_COUNT : Nat := 4

/-- Configuration constant `SENTENCES_PER_WORD = 3` from `src/main.py`. -/
def SENTENCES_PER_WORD : Nat := 3

/-- A vocabulary entry, the dict `{"english": ..., "spanish": ...}` built by
`parse_vocabulary` and `save_word`.  Python dicts compare by value, matching
the derived decidable equality. -/
structure WordPair where
  english : String
  spanish : String
deriving DecidableEq

/-- Python slice `l[-n:]` for `n > 0`: the last `min n l.length` elements. -/
def takeLast (n : Nat) (l : List α) : List α := l.drop (l.length - n)

/-- Python `str.strip()`: drop leading and trailing whitespace. -/
def pyStrip (s : String) : String :=
  String.mk (((s.data.dropWhile Char.isWhitespace).reverse.dropWhile
    Char.isWhitespace).reverse)

/-- Python `str.split(sep)` for a one-character separator (also the behaviour
of `re.split(r',', line)`): split at every occurrence, keeping empty pieces,
so the result is never the empty list. -/
def splitChar (sep : Char) : List Char → List (List Char)
  | [] => [[]]
  | c :: cs =>
    match splitChar sep cs with
    | [] => if c = sep then [[], [c]] else [[c]]
    | h :: t => if c = sep then [] :: h :: t else (c :: h) :: t

/-- Function `parse_vocabulary` from `src/main.py`: split the stripped text
into lines, split each line on every comma (`re.split(r',', line)`), skip
lines with fewer than two fields, strip the first two fields. -/
def parse_vocabulary (text : String) : List WordPair :=
  ((splitChar (Char.ofNat 10) (pyStrip text).data).map String.mk).filterMap fun line =>
    match (splitChar ',' line.data).map String.mk with
    | e :: s :: _ => some { english := pyStrip e, spanish := pyStrip s }
    | _ => none

/-- Function `load_vocabulary_file` from `src/main.py`.  The file system is modelled by
`contents : Option String`; `none` stands for the `FileNotFoundError` /
generic-exception branches, both of which return `[]`. -/
def load_vocabulary_file (contents : Option String) : List WordPair :=
  match contents with
  | some text => parse_vocabulary text
  | none => []

/-- The slice of `VocabularyTrainer` state touched by the load dialog:
`self.vocabulary` and `self.current_index`. -/
structure TrainerState where
  vocabulary : List WordPair
  current_index : Nat
deriving DecidableEq

/-- Function `load_vocabulary_file_dialog` from `src/main.py`, after a file was chosen:
`self.vocabulary = load_vocabulary_file(file_path)`; if the result is
non-empty it is shuffled (`sh` is the permutation `random.shuffle` applied)
and `self.current_index = 0` with a success message (`true`), else an error
dialog is shown (`false`) and `current_index` is not touched. -/
def load_vocabulary_file_dialog (sh : List WordPair → List WordPair)
    (contents : Option String) (s : TrainerState) : TrainerState × Bool :=
  let loaded := load_vocabulary_file contents
  if loaded ≠ [] then
    ({ vocabulary := sh loaded, current_index := 0 }, true)
  else
    ({ vocabulary := loaded, current_index := s.current_index }, false)

/-- Function `save_word` from `show_add_word_dialog` in `src/main.py`: strip both
entries; if both are non-empty append `{"spanish": ..., "english": ...}` to
`self.vocabulary` and report success (`true`), else show a warning (`false`)
and leave the vocabulary unchanged. -/
def save_word (spanishInput englishInput : String)
    (vocabulary : List WordPair) : List WordPair × Bool :=
  let spanish := pyStrip spanishInput
  let english := pyStrip englishInput
  if spanish ≠ "" ∧ english ≠ "" then
    (vocabulary ++ [{ english := english, spanish := spanish }], true)
  else
    (vocabulary, false)

/-! ## The word store (`self.vocabulary` / `self.current_index`)

`show_next_word` pulls words as: if `current_index >= len(vocabulary)` then
reset the index to `0` and reshuffle; then read `vocabulary[current_index]`
and (at the end of the handler) increment `current_index`. -/

/-- The store slice of the trainer state: word list plus cursor,
polymorphic in the word type. -/
structure Store (W : Type) where
  words : List W
  cursor : Nat
deriving DecidableEq

/-- The word-pull performed by `show_next_word` (lines 553-557 and 595 of
`src/main.py`): reshuffle-and-reset before reading whenever the cursor has
run off the end, then return the word under the cursor and advance the
cursor.  `sh` is the permutation applied by `random.shuffle`.  An
out-of-range read (impossible when `sh` permutes) is modelled as `none`. -/
def nextWord (sh : List W → List W) (s : Store W) : Option (W × Store W) :=
  if s.words.isEmpty then none
  else
    let t := if s.words.length ≤ s.cursor then Store.mk (sh s.words) 0 else s
    match t.words[t.cursor]? with
    | some w => some (w, Store.mk t.words (t.cursor + 1))
    | none => none

/-- Iterate `nextWord` `k` times, collecting the returned words in order. -/
def runNext (sh : List W → List W) : Nat → Store W → List W × Store W
  | 0, s => ([], s)
  | k + 1, s =>
    match nextWord sh s with
    | none => ([], s)
    | some (w, s1) =>
      let r := runNext sh k s1
      (w :: r.1, r.2)

/-- Appending `self.vocabulary.append(...)` as performed by `save_word`, viewed on the
store: append at the end, leave the cursor alone. -/
def addPair (p : W) (s : Store W) : Store W := Store.mk (s.words ++ [p]) s.cursor

/-! ## Exam triggering (`show_next_word`, lines 592-603) -/

/-- The exam-policy slice of the trainer state: `self.recent_words` and
`self.words_since_last_exam`. -/
structure ExamSt (W : Type) where
  recent_words : List W
  words_since_last_exam : Nat
deriving DecidableEq

/-- One advance as far as the exam policy is concerned (lines 592-603 of
`src/main.py`): append the shown word to `recent_words`, increment the
counter; if both counter and buffer length have reached
`EXAM_TRIGGER_INTERVAL`, start an exam over `recent_words[-EXAM_WORD_COUNT:]`
(or all of `recent_words` when shorter), reset the counter to `0` and keep
only `recent_words[-(EXAM_WORD_COUNT//2):]`.  Returns the new state and the
exam pool when an exam fired. -/
def examStep (s : ExamSt W) (w : W) : ExamSt W × Option (List W) :=
  let r := s.recent_words ++ [w]
  let c := s.words_since_last_exam + 1
  if EXAM_TRIGGER_INTERVAL ≤ c ∧ EXAM_TRIGGER_INTERVAL ≤ r.length then
    let pool := if EXAM_WORD_COUNT ≤ r.length then takeLast EXAM_WORD_COUNT r else r
    (ExamSt.mk (takeLast (EXAM_WORD_COUNT / 2) r) 0, some pool)
  else
    (ExamSt.mk r c, none)

/-- Run `examStep` over a whole sequence of advanced words, collecting the
per-advance exam pools (`none` when no exam fired on that advance). -/
def runExam (s : ExamSt W) : List W → ExamSt W × List (Option (List W))
  | [] => (s, [])
  | w :: ws =>
    let p := examStep s w
    let r := runExam p.1 ws
    (r.1, p.2 :: r.2)

/-! ## Exam construction and scoring (`start_exam`, `evaluate_exam`) -/

/-- The options built by `start_exam` (lines 402-406 of `src/main.py`) for
one question: `other_answers` are the English fields of every pool entry
that differs (by value) from the prompted word; they are shuffled
(permutation `sh1`), the first `EXAM_CHOICES_COUNT - 1` are kept, the
correct answer is appended, and the result is shuffled again (`sh2`). -/
def start_exam_options (sh1 sh2 : List String → List String)
    (exam_words : List WordPair) (word : WordPair) : List String :=
  let correct := word.english
  let other_answers := (exam_words.filter (fun w => w ≠ word)).map (fun w => w.english)
  let shuffled := sh1 other_answers
  sh2 (shuffled.take (EXAM_CHOICES_COUNT - 1) ++ [correct])

/-- One row of `self.exam_answers`: the recorded correct English string and
the string held by the question's `StringVar` at submission time (`""` when
the user never selected anything — a tkinter `StringVar` starts out empty). -/
structure Answer where
  correct : String
  selected : String
deriving DecidableEq

/-- Function `evaluate_exam` from `src/main.py` (lines 422-444): count a point for
every row whose selected string equals the recorded correct string,
`total = len(self.exam_answers)`, and
`percentage = (score / total) * 100 if total > 0 else 0`. -/
def evaluate_exam (answers : List Answer) : Nat × Nat × ℚ :=
  let score := (answers.filter (fun a => a.selected = a.correct)).length
  let total := answers.length
  let percentage : ℚ := if 0 < total then (score : ℚ) / (total : ℚ) * 100 else 0
  (score, total, percentage)

/-! ## Sentence generation (`get_example_sentences`, `fetch_sentences_thread`)

The AI call (`ollama.generate`) is modelled by `response : Option String`
(`none` = the service raised, taking the `except` branch), `random.sample`
by the oracle `sample`, and the two `cancel_event.is_set()` checks by the
booleans `cancelAtStart` / `cancelAfterCall`. -/

/-- Python `str.capitalize()`: first character upper-cased, the rest
lower-cased. -/
def pyCapitalize (s : String) : String :=
  match s.data with
  | [] => ""
  | c :: cs => String.mk (c.toUpper :: cs.map Char.toLower)

/-- The `patterns` list of fallback sentences in `get_example_sentences`. -/
def fallback_patterns (word : String) : List String :=
  [ "Me gusta mucho " ++ word ++ ".",
    pyCapitalize word ++ " es muy importante.",
    "Necesito " ++ word ++ " para mi vida diaria.",
    "Sin " ++ word ++ " no puedo vivir.",
    pyCapitalize word ++ " me ayuda mucho.",
    "Todos necesitamos " ++ word ++ ".",
    pyCapitalize word ++ " está en mi casa.",
    "Compré " ++ word ++ " ayer.",
    "Busco " ++ word ++ " en la tienda.",
    "Este es un ejemplo con la palabra " ++ word ++ ".",
    "Podemos usar " ++ word ++ " en diferentes contextos.",
    "La palabra " ++ word ++ " es útil en español." ]

/-- The fallback branch of `get_example_sentences`:
`random.sample(patterns, min(SENTENCES_PER_WORD, len(patterns)))`, with
`random.sample` as the oracle `sample`. -/
def fallback_sentences (sample : List String → Nat → List String)
    (word : String) : List String :=
  sample (fallback_patterns word) (min SENTENCES_PER_WORD (fallback_patterns word).length)

/-- The per-line cleanup of the AI response:
`s.strip().replace('1. ', '').replace('2. ', '').replace('3. ', '')`. -/
def clean_sentence (s : String) : String :=
  (((pyStrip s).replace "1. " "").replace "2. " "").replace "3. " ""

/-- The success branch of `get_example_sentences`: keep the lines whose strip
is non-empty, clean each, truncate to `SENTENCES_PER_WORD`, then pad with
`"Ejemplo con {word}."` until `SENTENCES_PER_WORD` sentences remain. -/
def ai_cleanup (word : String) (lines : List String) : List String :=
  let sentences := (lines.filter (fun s => pyStrip s ≠ "")).map clean_sentence
  let sentences :=
    if SENTENCES_PER_WORD < sentences.length then sentences.take SENTENCES_PER_WORD
    else sentences
  sentences ++ List.replicate (SENTENCES_PER_WORD - sentences.length)
    ("Ejemplo con " ++ word ++ ".")

/-- Function `get_example_sentences` from `src/main.py`: when Ollama is
available, a cancellation observed at either check returns `["", "", ""]`;
a successful call is cleaned by `ai_cleanup` on the response split into
lines; an exception, like unavailability, falls through to the fallback
sample. -/
def get_example_sentences (avail : Bool)
    (sample : List String → Nat → List String) (response : Option String)
    (cancelAtStart cancelAfterCall : Bool) (word : String) : List String :=
  if avail then
    if cancelAtStart then ["", "", ""]
    else
      match response with
      | some resp =>
        if cancelAfterCall then ["", "", ""]
        else ai_cleanup word ((splitChar (Char.ofNat 10) (pyStrip resp).data).map String.mk)
      | none => fallback_sentences sample word
  else fallback_sentences sample word

/-! ## The cancellation machine

`show_next_word` runs on the UI thread; each `fetch_sentences_thread` runs on
its own OS thread and mutates `self.current_sentences` directly, so its
statements interleave freely with the UI thread's.  The machine below gives
each shared-memory access of `fetch_sentences_thread` its own atomic step and
models `show_next_word`'s sentence-relevant statements as one step (they all
run on the one UI thread; executing them consecutively is one of the real
schedules).  `threading.Event` objects are numbered; `setEvents` lists the
ids of events whose flag is set, and `attr` is the id currently referenced by
`self.cancel_event`.  `turn` counts advances and `originTurn` records which
advance spawned a fetch thread — ghost data used only to state claims. -/

/-- One `fetch_sentences_thread` worker.  Program counter: 0 = about to run
`self.cancel_event.clear()`; 1 = about to read `self.cancel_event` as the
argument of `get_example_sentences`; 2 = about to generate; 3 = about to run
the publish gate `if not self.cancel_event.is_set()`; 4 = finished. -/
structure ThreadSt where
  word : String
  originTurn : Nat
  pc : Nat
  ev : Nat
  result : List String
deriving DecidableEq

/-- The shared state of the sentence pipeline. -/
structure TrainerSys where
  attr : Nat
  nextEv : Nat
  setEvents : List Nat
  turn : Nat
  current_sentences : List String
  sentences_origin : Nat
  threads : List ThreadSt
deriving DecidableEq

/-- Initial state: `initialize_variables` creates one unset event (id 0),
`self.current_sentences = []`. -/
def initSys : TrainerSys :=
  { attr := 0, nextEv := 1, setEvents := [], turn := 0,
    current_sentences := [], sentences_origin := 0, threads := [] }

/-- The sentence-relevant part of one `show_next_word` call on the UI thread:
`self.cancel_event.set()` on the current event, then
`self.cancel_event = threading.Event()` (a fresh, unset event), then spawn a
`fetch_sentences_thread` for the new word. -/
def advanceStep (w : String) (sys : TrainerSys) : TrainerSys :=
  { sys with
    setEvents := sys.attr :: sys.setEvents,
    attr := sys.nextEv,
    nextEv := sys.nextEv + 1,
    turn := sys.turn + 1,
    threads := sys.threads ++ [ThreadSt.mk w (sys.turn + 1) 0 0 []] }

/-- One atomic step of worker `i`, following `fetch_sentences_thread`:
clear whatever event `self.cancel_event` currently references; read
`self.cancel_event` as the cancel token passed to `get_example_sentences`;
generate; then the publish gate, which re-reads `self.cancel_event` and, when
it is not set, assigns `self.current_sentences` (the queued
`update_example_sentences` renders exactly this field). -/
def threadStep (avail : Bool) (sample : List String → Nat → List String)
    (response : String → Option String) (i : Nat) (sys : TrainerSys) : TrainerSys :=
  match sys.threads[i]? with
  | none => sys
  | some t =>
    match t.pc with
    | 0 =>
      { sys with setEvents := sys.setEvents.filter (fun e => e ≠ sys.attr),
                 threads := sys.threads.set i { t with pc := 1 } }
    | 1 =>
      { sys with threads := sys.threads.set i { t with ev := sys.attr, pc := 2 } }
    | 2 =>
      let c := sys.setEvents.contains t.ev
      let r := get_example_sentences avail sample (response t.word) c c t.word
      { sys with threads := sys.threads.set i { t with result := r, pc := 3 } }
    | 3 =>
      if sys.setEvents.contains sys.attr then
        { sys with threads := sys.threads.set i { t with pc := 4 } }
      else
        { sys with current_sentences := t.result,
                   sentences_origin := t.originTurn,
                   threads := sys.threads.set i { t with pc := 4 } }
    | _ => sys

/-- A schedule entry: either the UI thread runs `show_next_word` for a word,
or worker `i` takes its next atomic step. -/
inductive Act where
  | adv (w : String)
  | thr (i : Nat)
deriving DecidableEq

/-- Run a schedule against the machine. -/
def runSys (avail : Bool) (sample : List String → Nat → List String)
    (response : String → Option String) : List Act → TrainerSys → TrainerSys
  | [], sys => sys
  | Act.adv w :: rest, sys => runSys avail sample response rest (advanceStep w sys)
  | Act.thr i :: rest, sys => runSys avail sample response rest (threadStep avail sample response i sys)

/-! ## Helper lemmas -/

/-- Iterating the word-pull while the cursor stays within the list neither
reshuffles nor wraps: it returns the slice from the cursor onward and moves
the cursor forward by the number of calls. -/
theorem runNext_no_wrap {W : Type} (sh : List W → List W) :
    ∀ (k : Nat) (ws : List W) (c : Nat), ws ≠ [] → c + k ≤ ws.length →
      runNext sh k (Store.mk ws c) = ((ws.drop c).take k, Store.mk ws (c + k)) := by
  intro k
  induction k with
  | zero =>
    intro ws c hne hk
    simp [runNext]
  | succ k ih =>
    intro ws c hne hk
    have hc : c < ws.length := by omega
    have hnw : nextWord sh (Store.mk ws c) = some (ws[c], Store.mk ws (c + 1)) := by
      unfold nextWord
      simp only [List.isEmpty_iff, hne, if_false, if_neg (by omega : ¬ ws.length ≤ c)]
      simp [List.getElem?_eq_getElem hc]
    rw [runNext, hnw]
    dsimp only
    rw [ih ws (c + 1) hne (by omega)]
    rw [List.drop_eq_getElem_cons hc, List.take_succ_cons]
    have hcl : c + 1 + k = c + (k + 1) := by omega
    rw [hcl]

/-- On a duplicate-free list, filtering out one value is erasing it. -/
theorem filter_ne_eq_erase {W : Type} [DecidableEq W] (l : List W) (a : W)
    (d : l.Nodup) : l.filter (fun w => w ≠ a) = l.erase a := by
  rw [d.erase_eq_filter a]
  apply List.filter_congr
  intro b _
  by_cases hba : b = a <;> simp [hba]

/-- Inductive invariant of the exam policy: the buffer length is the counter
or the counter plus ten, and the counter never exceeds nine between
advances. -/
def examLenInv {W : Type} (s : ExamSt W) : Prop :=
  (s.recent_words.length = s.words_since_last_exam ∨
    s.recent_words.length = s.words_since_last_exam + 10) ∧
  s.words_since_last_exam ≤ 9

/-- One advance preserves `examLenInv`. -/
theorem examStep_len_inv {W : Type} (s : ExamSt W) (w : W) (h : examLenInv s) :
    examLenInv (examStep s w).1 := by
  obtain ⟨h1, h2⟩ := h
  unfold examStep
  dsimp only
  split
  · rename_i hg
    simp only [EXAM_TRIGGER_INTERVAL, List.length_append, List.length_singleton] at hg
    unfold examLenInv takeLast
    simp only [List.length_drop, List.length_append, List.length_singleton,
      EXAM_WORD_COUNT]
    omega
  · rename_i hg
    simp only [EXAM_TRIGGER_INTERVAL, List.length_append, List.length_singleton,
      not_and, not_le] at hg
    unfold examLenInv
    simp only [List.length_append, List.length_singleton]
    omega

/-- Any run of advances preserves `examLenInv`. -/
theorem runExam_len_inv {W : Type} (ws : List W) (s : ExamSt W) (h : examLenInv s) :
    examLenInv (runExam s ws).1 := by
  induction ws generalizing s with
  | nil => simpa [runExam]
  | cons w ws ih =>
    rw [runExam]
    exact ih (examStep s w).1 (examStep_len_inv s w h)

/-! ## Claims -/

/-- Claim C1 (code bug witness).  The claim says a result produced by a task
whose originating turn has been superseded is never published into
application state.  The machine — a faithful sequential-consistency model of
`show_next_word` / `fetch_sentences_thread` — admits the schedule below:
turn 1 starts a fetch for "hola"; the fetch captures the event object then
held by `self.cancel_event` and computes its sentences; the user advances to
turn 2, which sets that event but also rebinds `self.cancel_event` to a
fresh unset event; the stale fetch's publish gate re-reads
`self.cancel_event`, sees the fresh event unset, and overwrites
`current_sentences` with turn 1's result while turn 2 is current.  Ollama is
unavailable in this run, so the published result is the template fallback
for "hola" (sampled here by `take`). -/
theorem stale_turn_publish_reachable :
    (runSys false (fun l n => l.take n) (fun _ => none)
      [Act.adv "hola", Act.thr 0, Act.thr 0, Act.thr 0, Act.adv "adios", Act.thr 0]
      initSys).sentences_origin = 1 ∧
    (runSys false (fun l n => l.take n) (fun _ => none)
      [Act.adv "hola", Act.thr 0, Act.thr 0, Act.thr 0, Act.adv "adios", Act.thr 0]
      initSys).turn = 2 ∧
    (runSys false (fun l n => l.take n) (fun _ => none)
      [Act.adv "hola", Act.thr 0, Act.thr 0, Act.thr 0, Act.adv "adios", Act.thr 0]
      initSys).current_sentences =
      ["Me gusta mucho hola.", "Hola es muy importante.",
       "Necesito hola para mi vida diaria."] := by
  decide

/-- Claim C2.  From the start of a pass (cursor 0) over a non-empty
vocabulary of `n` words, `n` pulls return exactly the words of the current
sequence, in sequence order, leaving the cursor at `n`; the `(n+1)`-th pull
reshuffles first and returns the word at index 0 of the reshuffled
sequence with the cursor moved to 1 — it never reads past the end. -/
theorem next_pass_exactly_once {W : Type} (sh : List W → List W)
    (hsh : ∀ l, (sh l).Perm l) (s : Store W) (hne : s.words ≠ []) (h0 : s.cursor = 0) :
    (runNext sh s.words.length s).1 = s.words ∧
    (runNext sh s.words.length s).2 = Store.mk s.words s.words.length ∧
    ∃ w, nextWord sh (Store.mk s.words s.words.length) =
        some (w, Store.mk (sh s.words) 1) ∧ (sh s.words)[0]? = some w := by
  obtain ⟨ws, c⟩ := s
  simp only at h0
  subst h0
  have h := runNext_no_wrap sh ws.length ws 0 hne (by omega)
  have hlen : 0 < (sh ws).length := by
    rw [(hsh ws).length_eq]
    exact List.length_pos.mpr hne
  refine ⟨?_, ?_, ?_⟩
  · rw [h]; simp
  · rw [h]; simp
  · refine ⟨(sh ws)[0], ?_, ?_⟩
    · unfold nextWord
      simp only [List.isEmpty_iff, hne, if_false, if_pos (le_refl ws.length)]
      simp [List.getElem?_eq_getElem hlen]
    · simp [List.getElem?_eq_getElem hlen]

/-- Witness for C2 at the vocabulary `[1, 2, 3]` with the reversal
permutation standing in for the reshuffle. -/
theorem next_pass_exactly_once_witness :
    (runNext (fun l => l.reverse) 3 (Store.mk ([1, 2, 3] : List Nat) 0)).1 = [1, 2, 3] ∧
    ∃ w, nextWord (fun l => l.reverse) (Store.mk ([1, 2, 3] : List Nat) 3) =
        some (w, Store.mk [3, 2, 1] 1) ∧ ([3, 2, 1] : List Nat)[0]? = some w := by
  have h := next_pass_exactly_once (fun l => l.reverse) (fun l => l.reverse_perm)
    (Store.mk ([1, 2, 3] : List Nat) 0) (by decide) rfl
  exact ⟨h.1, h.2.2⟩

/-- Counterexample to C3 as stated.  A pool of four word pairs in which two
pairs share the English translation "one": for the question on ("uno","one")
the built options contain "one" twice (the identity permutation is a
possible outcome of both shuffles), so the options are not four distinct
strings and the correct answer does not occur exactly once. -/
theorem exam_options_duplicate_cex :
    EXAM_CHOICES_COUNT ≤ ([WordPair.mk "one" "uno", WordPair.mk "one" "dos",
      WordPair.mk "three" "tres", WordPair.mk "four" "cuatro"] : List WordPair).length ∧
    WordPair.mk "one" "uno" ∈ [WordPair.mk "one" "uno", WordPair.mk "one" "dos",
      WordPair.mk "three" "tres", WordPair.mk "four" "cuatro"] ∧
    (start_exam_options id id
      [WordPair.mk "one" "uno", WordPair.mk "one" "dos",
       WordPair.mk "three" "tres", WordPair.mk "four" "cuatro"]
      (WordPair.mk "one" "uno")).count "one" = 2 ∧
    ¬ (start_exam_options id id
      [WordPair.mk "one" "uno", WordPair.mk "one" "dos",
       WordPair.mk "three" "tres", WordPair.mk "four" "cuatro"]
      (WordPair.mk "one" "uno")).Nodup := by
  decide

/-- Claim C3, amended: for every pool of at least `EXAM_CHOICES_COUNT` word
pairs whose English translations are pairwise distinct, every question's
options are exactly `EXAM_CHOICES_COUNT` distinct strings among which the
correct translation occurs exactly once (for any pair of shuffle
permutations). -/
theorem exam_options_distinct (sh1 sh2 : List String → List String)
    (h1 : ∀ l, (sh1 l).Perm l) (h2 : ∀ l, (sh2 l).Perm l)
    (pool : List WordPair) (word : WordPair)
    (hnd : (pool.map WordPair.english).Nodup)
    (hlen : EXAM_CHOICES_COUNT ≤ pool.length) (hmem : word ∈ pool) :
    (start_exam_options sh1 sh2 pool word).length = EXAM_CHOICES_COUNT ∧
    (start_exam_options sh1 sh2 pool word).Nodup ∧
    (start_exam_options sh1 sh2 pool word).count word.english = 1 := by
  have hndp : pool.Nodup := hnd.of_map
  set others0 := (pool.filter (fun w => w ≠ word)).map (fun w => w.english) with hdef
  have hsub : others0.Sublist (pool.map (fun w => w.english)) :=
    (List.filter_sublist pool).map _
  have hnd0 : others0.Nodup := hsub.nodup hnd
  have hmem0 : word.english ∉ others0 := by
    intro hin
    rw [hdef] at hin
    obtain ⟨w, hw, hwe⟩ := List.mem_map.mp hin
    have hw2 := List.mem_filter.mp hw
    have : w = word := List.inj_on_of_nodup_map hnd hw2.1 hmem hwe
    rw [this] at hw2
    simp at hw2
  have hlen0 : others0.length = pool.length - 1 := by
    rw [hdef, List.length_map, filter_ne_eq_erase pool word hndp,
      List.length_erase_of_mem hmem]
  have hperm1 := h1 others0
  have hnd1 : (sh1 others0).Nodup := hperm1.nodup_iff.mpr hnd0
  have hlen1 : (sh1 others0).length = pool.length - 1 := by
    rw [hperm1.length_eq, hlen0]
  have hmem1 : word.english ∉ sh1 others0 := fun hin => hmem0 (hperm1.mem_iff.mp hin)
  set taken := (sh1 others0).take (EXAM_CHOICES_COUNT - 1) with htdef
  have htsub : taken.Sublist (sh1 others0) := List.take_sublist _ _
  have hndt : taken.Nodup := htsub.nodup hnd1
  have hlent : taken.length = EXAM_CHOICES_COUNT - 1 := by
    rw [htdef, List.length_take, hlen1]
    have : EXAM_CHOICES_COUNT ≤ pool.length := hlen
    rw [EXAM_CHOICES_COUNT] at this ⊢
    omega
  have hmemt : word.english ∉ taken := fun hin => hmem1 (htsub.mem hin)
  have hopts : (taken ++ [word.english]).Nodup := by
    rw [List.nodup_append]
    refine ⟨hndt, List.nodup_singleton _, ?_⟩
    intro a ha hb
    rw [List.mem_singleton] at hb
    rw [hb] at ha
    exact hmemt ha
  have hcnt : (taken ++ [word.english]).count word.english = 1 := by
    rw [List.count_append, List.count_eq_zero_of_not_mem hmemt]
    simp
  have hlopts : (taken ++ [word.english]).length = EXAM_CHOICES_COUNT := by
    rw [List.length_append, hlent, List.length_singleton]
    rw [EXAM_CHOICES_COUNT]
  have hperm2 := h2 (taken ++ [word.english])
  have hfin : start_exam_options sh1 sh2 pool word = sh2 (taken ++ [word.english]) := rfl
  refine ⟨?_, ?_, ?_⟩
  · rw [hfin, hperm2.length_eq, hlopts]
  · rw [hfin]
    exact hperm2.nodup_iff.mpr hopts
  · rw [hfin, hperm2.count_eq, hcnt]

/-- Witness for the amended C3 on a four-word pool with distinct English
translations and identity shuffles. -/
theorem exam_options_distinct_witness :
    (start_exam_options id id
      [WordPair.mk "one" "uno", WordPair.mk "two" "dos",
       WordPair.mk "three" "tres", WordPair.mk "four" "cuatro"]
      (WordPair.mk "one" "uno")).length = EXAM_CHOICES_COUNT ∧
    (start_exam_options id id
      [WordPair.mk "one" "uno", WordPair.mk "two" "dos",
       WordPair.mk "three" "tres", WordPair.mk "four" "cuatro"]
      (WordPair.mk "one" "uno")).Nodup ∧
    (start_exam_options id id
      [WordPair.mk "one" "uno", WordPair.mk "two" "dos",
       WordPair.mk "three" "tres", WordPair.mk "four" "cuatro"]
      (WordPair.mk "one" "uno")).count "one" = 1 := by
  have h := exam_options_distinct id id (fun l => List.Perm.refl l)
    (fun l => List.Perm.refl l)
    [WordPair.mk "one" "uno", WordPair.mk "two" "dos",
     WordPair.mk "three" "tres", WordPair.mk "four" "cuatro"]
    (WordPair.mk "one" "uno") (by decide) (by decide) (by decide)
  exact ⟨h.1, h.2.1, h.2.2⟩

/-- Claim C4.  An advance fires an exam exactly when the incremented counter
and the extended buffer length both reach `EXAM_TRIGGER_INTERVAL`; on firing
the pool is the last `min(len(recent_words), EXAM_WORD_COUNT)` entries of
the extended buffer, the counter resets to 0 and the buffer shrinks to its
last `EXAM_WORD_COUNT / 2` entries; and concretely, from an empty buffer the
first exam fires on the 10th advance with all 10 accumulated words, leaving
a buffer of 10 entries and a zero counter. -/
theorem exam_trigger_policy :
    (∀ (W : Type) (s : ExamSt W) (w : W),
      ((examStep s w).2.isSome ↔
        (EXAM_TRIGGER_INTERVAL ≤ s.words_since_last_exam + 1 ∧
         EXAM_TRIGGER_INTERVAL ≤ (s.recent_words ++ [w]).length))) ∧
    (∀ (W : Type) (s : ExamSt W) (w : W) (pool : List W),
      (examStep s w).2 = some pool →
        pool = takeLast (min (s.recent_words ++ [w]).length EXAM_WORD_COUNT)
          (s.recent_words ++ [w]) ∧
        (examStep s w).1.words_since_last_exam = 0 ∧
        (examStep s w).1.recent_words =
          takeLast (EXAM_WORD_COUNT / 2) (s.recent_words ++ [w])) ∧
    (runExam (ExamSt.mk ([] : List Nat) 0) [1, 2, 3, 4, 5, 6, 7, 8, 9, 10] =
      (ExamSt.mk [1, 2, 3, 4, 5, 6, 7, 8, 9, 10] 0,
       [none, none, none, none, none, none, none, none, none,
        some [1, 2, 3, 4, 5, 6, 7, 8, 9, 10]])) := by
  refine ⟨?_, ?_, by decide⟩
  · intro W s w
    unfold examStep
    dsimp only
    split
    · rename_i h
      simpa using h
    · rename_i h
      simpa using h
  · intro W s w pool hfire
    unfold examStep at hfire ⊢
    dsimp only at hfire ⊢
    by_cases hg : EXAM_TRIGGER_INTERVAL ≤ s.words_since_last_exam + 1 ∧
        EXAM_TRIGGER_INTERVAL ≤ (s.recent_words ++ [w]).length
    · rw [if_pos hg] at hfire ⊢
      simp only [Option.some.injEq] at hfire
      refine ⟨?_, rfl, rfl⟩
      rw [← hfire]
      by_cases h20 : EXAM_WORD_COUNT ≤ (s.recent_words ++ [w]).length
      · rw [if_pos h20, min_eq_right h20]
      · rw [if_neg h20, min_eq_left (by omega), takeLast, Nat.sub_self, List.drop_zero]
    · rw [if_neg hg] at hfire
      simp at hfire

/-- Witness for C4: a concrete firing advance (counter 9, buffer of 9)
with its pool, reset counter and shrunk buffer. -/
theorem exam_trigger_policy_witness :
    (examStep (ExamSt.mk ([0, 1, 2, 3, 4, 5, 6, 7, 8] : List Nat) 9) 9).1.words_since_last_exam = 0 ∧
    (examStep (ExamSt.mk ([0, 1, 2, 3, 4, 5, 6, 7, 8] : List Nat) 9) 9).1.recent_words =
      takeLast (EXAM_WORD_COUNT / 2) ([0, 1, 2, 3, 4, 5, 6, 7, 8] ++ [9]) ∧
    ([0, 1, 2, 3, 4, 5, 6, 7, 8, 9] : List Nat) =
      takeLast (min (([0, 1, 2, 3, 4, 5, 6, 7, 8] : List Nat) ++ [9]).length EXAM_WORD_COUNT)
        ([0, 1, 2, 3, 4, 5, 6, 7, 8] ++ [9]) := by
  have h := exam_trigger_policy.2.1 Nat (ExamSt.mk [0, 1, 2, 3, 4, 5, 6, 7, 8] 9) 9
    [0, 1, 2, 3, 4, 5, 6, 7, 8, 9] (by decide)
  exact ⟨h.2.1, h.2.2, h.1⟩

/-- Claim C5: counterexample to the claim as stated.  With a non-empty store
and a load that yields no pairs (here: a missing/unreadable file, modelled
as `none`), the dialog reports failure but replaces the word list by the
empty list instead of leaving it in its previous state. -/
theorem load_failure_clears_store_cex :
    (load_vocabulary_file_dialog id none
        (TrainerState.mk [WordPair.mk "hello" "hola"] 1)).1.vocabulary ≠
      (TrainerState.mk [WordPair.mk "hello" "hola"] 1).vocabulary ∧
    (load_vocabulary_file_dialog id none
        (TrainerState.mk [WordPair.mk "hello" "hola"] 1)).1.vocabulary = [] ∧
    (load_vocabulary_file_dialog id none
        (TrainerState.mk [WordPair.mk "hello" "hola"] 1)).2 = false := by
  decide

/-- Claim C5, amended: when loading fails or yields no pairs, the failure is
reported to the user and the cursor is unchanged, but the word list is
replaced by the empty list (the previous list is discarded, not kept). -/
theorem load_failure_reports_and_clears (sh : List WordPair → List WordPair)
    (contents : Option String) (s : TrainerState)
    (h : load_vocabulary_file contents = []) :
    load_vocabulary_file_dialog sh contents s =
      (TrainerState.mk [] s.current_index, false) := by
  unfold load_vocabulary_file_dialog
  dsimp only
  rw [h]
  simp

/-- Witness for the amended C5: a readable file whose text contains no
parsable pair. -/
theorem load_failure_reports_and_clears_witness :
    load_vocabulary_file_dialog id (some "no commas here")
      (TrainerState.mk [WordPair.mk "a" "b"] 7) = (TrainerState.mk [] 7, false) :=
  load_failure_reports_and_clears id (some "no commas here")
    (TrainerState.mk [WordPair.mk "a" "b"] 7) (by decide)

/-- Claim C6.  Adding a pair appends it at the end and changes nothing else:
the existing words keep their order, the cursor is unchanged, the next
`len - cursor` pulls still return exactly the remaining words of the current
pass (in order, with no reshuffle: the sequence afterwards is still the old
words plus the appended one), and only the pull after that — once the
current pass is exhausted — returns the added pair. -/
theorem add_word_frame {W : Type} (sh : List W → List W) (s : Store W) (p : W)
    (hc : s.cursor ≤ s.words.length) :
    (addPair p s).words = s.words ++ [p] ∧
    (addPair p s).cursor = s.cursor ∧
    (runNext sh (s.words.length - s.cursor) (addPair p s)).1 = s.words.drop s.cursor ∧
    (runNext sh (s.words.length - s.cursor) (addPair p s)).2 =
      Store.mk (s.words ++ [p]) s.words.length ∧
    nextWord sh (Store.mk (s.words ++ [p]) s.words.length) =
      some (p, Store.mk (s.words ++ [p]) (s.words.length + 1)) := by
  obtain ⟨ws, c⟩ := s
  simp only at hc ⊢
  have hne : ws ++ [p] ≠ [] := by simp
  have h := runNext_no_wrap sh (ws.length - c) (ws ++ [p]) c hne
    (by simp only [List.length_append, List.length_cons, List.length_nil]; omega)
  have hcc : c + (ws.length - c) = ws.length := by omega
  rw [hcc] at h
  refine ⟨rfl, rfl, ?_, ?_, ?_⟩
  · show (runNext sh (ws.length - c) (Store.mk (ws ++ [p]) c)).1 = ws.drop c
    rw [h]
    dsimp only
    rw [List.drop_append_of_le_length hc]
    exact List.take_left' (by simp)
  · show (runNext sh (ws.length - c) (Store.mk (ws ++ [p]) c)).2 =
      Store.mk (ws ++ [p]) ws.length
    rw [h]
  · unfold nextWord
    have h1 : (ws ++ [p]).isEmpty = false := by simp
    have h2 : ¬ ((ws ++ [p]).length ≤ ws.length) := by simp
    rw [h1]
    simp only [Bool.false_eq_true, if_false, if_neg h2]
    simp

/-- Witness for C6: add 30 to the store `([10, 20], cursor 1)`; the one
remaining pull of the pass returns 20, and the following pull returns 30. -/
theorem add_word_frame_witness :
    (runNext (fun l => l) 1 (addPair 30 (Store.mk ([10, 20] : List Nat) 1))).1 = [20] ∧
    nextWord (fun l => l) (Store.mk ([10, 20, 30] : List Nat) 2) =
      some (30, Store.mk [10, 20, 30] 3) := by
  have h := add_word_frame (fun l => l) (Store.mk ([10, 20] : List Nat) 1) 30 (by decide)
  exact ⟨h.2.2.1, h.2.2.2.2⟩

/-- Claim C7 (code bug witness).  The claim says a published sentence result
never contains an empty string, on every path including cancellation
mid-generation.  In the schedule below (Ollama available), the turn-1 fetch
captures its cancel event, the user advances — setting that event but
rebinding `self.cancel_event` to a fresh one — the fetch then observes the
cancellation and produces the sentinel `["", "", ""]`, and its publish gate,
re-reading the rebound `self.cancel_event`, finds it unset and publishes the
three empty strings into `current_sentences`. -/
theorem cancelled_fetch_publishes_empty :
    (runSys true (fun l n => l.take n) (fun _ => none)
      [Act.adv "hola", Act.thr 0, Act.thr 0, Act.adv "adios", Act.thr 0, Act.thr 0]
      initSys).current_sentences = ["", "", ""] ∧
    "" ∈ (runSys true (fun l n => l.take n) (fun _ => none)
      [Act.adv "hola", Act.thr 0, Act.thr 0, Act.adv "adios", Act.thr 0, Act.thr 0]
      initSys).current_sentences ∧
    (runSys true (fun l n => l.take n) (fun _ => none)
      [Act.adv "hola", Act.thr 0, Act.thr 0, Act.adv "adios", Act.thr 0, Act.thr 0]
      initSys).sentences_origin ≠
    (runSys true (fun l n => l.take n) (fun _ => none)
      [Act.adv "hola", Act.thr 0, Act.thr 0, Act.adv "adios", Act.thr 0, Act.thr 0]
      initSys).turn := by
  decide

/-- Claim C8.  Scoring counts a question as correct exactly when its selected
string equals the recorded correct answer (a question left unanswered holds
the empty string, so with non-empty correct answers it scores nothing),
total is the number of questions, and the percentage is
`score / total * 100` with value 0 when total is 0. -/
theorem evaluate_exam_scoring (answers : List Answer) :
    (evaluate_exam answers).2.1 = answers.length ∧
    (evaluate_exam answers).1 =
      (answers.filter (fun a => a.selected = a.correct)).length ∧
    (answers = [] → (evaluate_exam answers).2.2 = 0) ∧
    (0 < answers.length →
      (evaluate_exam answers).2.2 =
        ((evaluate_exam answers).1 : ℚ) / (answers.length : ℚ) * 100) ∧
    ((∀ a ∈ answers, a.selected = a.correct) → answers ≠ [] →
      (evaluate_exam answers).2.2 = 100) ∧
    ((∀ a ∈ answers, a.selected = "" ∧ a.correct ≠ "") →
      (evaluate_exam answers).1 = 0) := by
  refine ⟨rfl, rfl, ?_, ?_, ?_, ?_⟩
  · intro h
    subst h
    rfl
  · intro h
    unfold evaluate_exam
    dsimp only
    rw [if_pos h]
  · intro hall hne
    unfold evaluate_exam
    dsimp only
    have hfull : answers.filter (fun a => a.selected = a.correct) = answers :=
      List.filter_eq_self.mpr (fun a ha => by simp [hall a ha])
    have hpos : 0 < answers.length := List.length_pos.mpr hne
    rw [if_pos hpos, hfull]
    have hnz : (answers.length : ℚ) ≠ 0 := by
      exact_mod_cast Nat.pos_iff_ne_zero.mp hpos
    field_simp
  · intro hall
    unfold evaluate_exam
    dsimp only
    have hnil : answers.filter (fun a => a.selected = a.correct) = [] := by
      rw [List.filter_eq_nil_iff]
      intro a ha
      obtain ⟨h1, h2⟩ := hall a ha
      simp [h1]
      intro hcon
      exact h2 hcon.symm
    rw [hnil]
    rfl

/-- Witness for C8: an all-correct round scores 100 percent, the empty round
scores 0 without dividing, and an all-unanswered round scores no points. -/
theorem evaluate_exam_scoring_witness :
    (evaluate_exam [Answer.mk "cat" "cat", Answer.mk "dog" "dog"]).2.2 = 100 ∧
    (evaluate_exam []).2.2 = 0 ∧
    (evaluate_exam [Answer.mk "cat" "", Answer.mk "dog" ""]).1 = 0 := by
  refine ⟨?_, ?_, ?_⟩
  · exact (evaluate_exam_scoring [Answer.mk "cat" "cat", Answer.mk "dog" "dog"]).2.2.2.2.1
      (by decide) (by decide)
  · exact (evaluate_exam_scoring []).2.2.1 rfl
  · exact (evaluate_exam_scoring [Answer.mk "cat" "", Answer.mk "dog" ""]).2.2.2.2.2
      (by decide)

/-- Claim C9.  In every state reachable by advances (exams included, since
they are triggered inside the advance), the recent-words buffer holds at
most `EXAM_WORD_COUNT` entries, and immediately after any advance that fired
an exam it holds at most `EXAM_WORD_COUNT / 2` entries. -/
theorem recent_words_bounded :
    (∀ (W : Type) (ws : List W),
      (runExam (ExamSt.mk [] 0) ws).1.recent_words.length ≤ EXAM_WORD_COUNT) ∧
    (∀ (W : Type) (s : ExamSt W) (w : W) (pool : List W),
      (examStep s w).2 = some pool →
      (examStep s w).1.recent_words.length ≤ EXAM_WORD_COUNT / 2) := by
  constructor
  · intro W ws
    have h := runExam_len_inv ws (ExamSt.mk [] 0)
      (by constructor <;> simp [examLenInv])
    obtain ⟨h1, h2⟩ := h
    rw [EXAM_WORD_COUNT]
    omega
  · intro W s w pool hfire
    unfold examStep at hfire ⊢
    dsimp only at hfire ⊢
    by_cases hg : EXAM_TRIGGER_INTERVAL ≤ s.words_since_last_exam + 1 ∧
        EXAM_TRIGGER_INTERVAL ≤ (s.recent_words ++ [w]).length
    · rw [if_pos hg]
      simp only [takeLast, List.length_drop, List.length_append, List.length_singleton,
        EXAM_WORD_COUNT]
      omega
    · rw [if_neg hg] at hfire
      simp at hfire

/-- Witness for C9: a five-advance run stays within the bound, and a
concrete firing advance leaves at most `EXAM_WORD_COUNT / 2` entries. -/
theorem recent_words_bounded_witness :
    (runExam (ExamSt.mk ([] : List Nat) 0) [1, 2, 3, 4, 5]).1.recent_words.length ≤
      EXAM_WORD_COUNT ∧
    (examStep (ExamSt.mk ([10, 11, 12, 13, 14, 15, 16, 17, 18] : List Nat) 9)
      19).1.recent_words.length ≤ EXAM_WORD_COUNT / 2 :=
  ⟨recent_words_bounded.1 Nat [1, 2, 3, 4, 5],
    recent_words_bounded.2 Nat (ExamSt.mk [10, 11, 12, 13, 14, 15, 16, 17, 18] 9) 19
      [10, 11, 12, 13, 14, 15, 16, 17, 18, 19] (by decide)⟩

/-- Claim C10.  If either entry strips to the empty string, the vocabulary
is unchanged and a warning is shown; if both strip non-empty, exactly one
pair holding the stripped entries is appended and success is reported. -/
theorem save_word_validation (spanishInput englishInput : String)
    (voc : List WordPair) :
    ((pyStrip spanishInput = "" ∨ pyStrip englishInput = "") →
      save_word spanishInput englishInput voc = (voc, false)) ∧
    (pyStrip spanishInput ≠ "" → pyStrip englishInput ≠ "" →
      save_word spanishInput englishInput voc =
        (voc ++ [WordPair.mk (pyStrip englishInput) (pyStrip spanishInput)], true)) := by
  constructor
  · intro h
    unfold save_word
    dsimp only
    rcases h with h | h <;> rw [if_neg (by simp [h])]
  · intro h1 h2
    unfold save_word
    dsimp only
    rw [if_pos ⟨h1, h2⟩]

/-- Witness for C10: a whitespace-only Spanish entry is rejected with the
vocabulary untouched; two padded entries are stripped and appended. -/
theorem save_word_validation_witness :
    save_word "   " " dog " [] = ([], false) ∧
    save_word " perro " " dog " [] = ([WordPair.mk "dog" "perro"], true) := by
  constructor
  · exact (save_word_validation "   " " dog " []).1 (Or.inl (by decide))
  · have h := (save_word_validation " perro " " dog " []).2 (by decide) (by decide)
    rw [h]
    decide

end VocabTrainer
